import Mathlib

/-!
Verification of the canonicalizing (hash-consed) singly linked list node
store described in the repository's design notes (`basics/sll.md`) and
exercised by the doctests in `tests/test_greetall.txt` (`sll.HashNode`,
`sll.traverse`).  The implementation module `sll.py` itself is not part of
the source tree here, so the operational definitions below are modelled
from the specification and the design notes, faithful to their words, and
checked against the behaviour shown in the doctests.
-/

set_option maxHeartbeats 1000000

/-- Modelled from the spec: the data of a client value stored in a node.
`sll.py` is missing, so values are modelled abstractly: `num` covers the
numeric tower (`int`/`bool`/`float` values that compare equal across types,
as in the doctest `HashNode(1.0) is HashNode(1) is HashNode(True)`), `str`
covers strings, `nan` is a NaN-like object that is not equal to itself, and
`obj` is a plain object whose equality is identity. -/
inductive PyData where
  | num : Int → PyData
  | str : String → PyData
  | nan : PyData
  | obj : PyData
deriving DecidableEq

/-- Modelled from the spec: a client value as an object: an identity
(`oid`) plus its data.  Two objects with distinct `oid` but equal `num`
data model distinct-but-equal values. -/
structure PyObj where
  oid : Nat
  data : PyData
deriving DecidableEq

/-- Modelled from the spec: ordinary equality (`==`) between values.
NaN-like objects are not equal to anything, themselves included; plain
objects compare by identity (the language default); numbers and strings
compare by their data. -/
def pyEq (a b : PyObj) : Bool :=
  match a.data, b.data with
  | PyData.num x, PyData.num y => x == y
  | PyData.str x, PyData.str y => x == y
  | PyData.obj, PyData.obj => a.oid == b.oid
  | _, _ => false

/-- Modelled from the spec: `!=` between values, the negation of `==`
(the default `__ne__`). -/
def pyNe (a b : PyObj) : Bool := !(pyEq a b)

/-- Modelled from the spec: `_Box.__eq__` — two boxed values are equal
when the wrapped values are the literal same object, or when they are
equal under ordinary equality (`self.value is other.value or self.value ==
other.value`). -/
def boxEq (a b : PyObj) : Bool := (a == b) || pyEq a b

/-- A throwaway value used as a `getD` fallback. -/
def dummyObj : PyObj := ⟨0, PyData.obj⟩

lemma beq_comm {α : Type} [BEq α] [LawfulBEq α] (x y : α) : (x == y) = (y == x) := by
  by_cases h : x = y
  · subst h; rfl
  · rw [beq_eq_false_iff_ne.mpr h, beq_eq_false_iff_ne.mpr (Ne.symm h)]

lemma pyEq_symm (a b : PyObj) : pyEq a b = pyEq b a := by
  rcases a with ⟨ao, ad⟩
  rcases b with ⟨bo, bd⟩
  cases ad <;> cases bd <;> simp [pyEq] <;> exact eq_comm

lemma pyEq_trans {a b c : PyObj} (h1 : pyEq a b = true) (h2 : pyEq b c = true) :
    pyEq a c = true := by
  rcases a with ⟨ao, ad⟩
  rcases b with ⟨bo, bd⟩
  rcases c with ⟨co, cd⟩
  cases ad <;> cases bd <;> cases cd <;> simp_all [pyEq]

lemma boxEq_refl (a : PyObj) : boxEq a a = true := by
  simp [boxEq]

lemma boxEq_of_pyEq {a b : PyObj} (h : pyEq a b = true) : boxEq a b = true := by
  simp [boxEq, h]

lemma boxEq_symm {a b : PyObj} (h : boxEq a b = true) : boxEq b a = true := by
  rcases Bool.or_eq_true_iff.mp h with h' | h'
  · simp [boxEq, beq_comm b a, h']
  · simp [boxEq, pyEq_symm b a, h']

lemma boxEq_trans {a b c : PyObj} (h1 : boxEq a b = true) (h2 : boxEq b c = true) :
    boxEq a c = true := by
  rcases Bool.or_eq_true_iff.mp h1 with h1' | h1'
  · have hab : a = b := beq_iff_eq.mp h1'
    subst hab; exact h2
  · rcases Bool.or_eq_true_iff.mp h2 with h2' | h2'
    · have hbc : b = c := beq_iff_eq.mp h2'
      subst hbc; exact boxEq_of_pyEq h1'
    · exact boxEq_of_pyEq (pyEq_trans h1' h2')

/-- Modelled from the spec: an immutable singly linked list cell
(`sll.HashNode`, whose module is missing from the tree): an object
identity `id`, the stored value (the node holds it through its `_Box`;
the public `value` accessor unwraps transparently), and the successor —
`some` of a node identity, or `none`, the terminal marker `None`. -/
structure Node where
  id : Nat
  value : PyObj
  next : Option Nat
deriving DecidableEq

/-- Modelled from the spec: the process-wide canonicalization state — the
currently live nodes (the weak-value table's live entries coincide with
them) and a supply of fresh object identities (`fresh` is strictly above
every identity ever allocated). -/
structure SllState where
  nodes : List Node
  fresh : Nat
deriving DecidableEq

/-- The initial state: no nodes. -/
def emptyState : SllState := ⟨[], 0⟩

/-- Modelled from the spec: whether a live node `m` matches the lookup key
for `(value, next)` — the boxed values are equal under `_Box.__eq__`
(identity or ordinary equality) and the successor is the identical
object. -/
def keyMatches (v : PyObj) (nxt : Option Nat) (m : Node) : Bool :=
  boxEq v m.value && nxt == m.next

/-- Two live nodes carry the same canonical key. -/
def keyEqB (a b : Node) : Bool :=
  boxEq a.value b.value && a.next == b.next

/-- Modelled from the spec: the canonicalizing constructor after the
successor has been validated (`HashNode.__new__` past its type check):
consult the table; on a hit return the existing node, on a miss allocate
a new node with a fresh identity and insert it. -/
def makeNodeOk (s : SllState) (v : PyObj) (nxt : Option Nat) : SllState × Nat :=
  match s.nodes.find? (keyMatches v nxt) with
  | some nd => (s, nd.id)
  | Option.none =>
      (⟨⟨s.fresh, v, nxt⟩ :: s.nodes, s.fresh + 1⟩, s.fresh)

/-- Modelled from the spec: what a caller may pass as the `next_node`
argument: the terminal marker `None`, a node, or some unrelated object. -/
inductive NextArg where
  | none : NextArg
  | node : Nat → NextArg
  | other : PyObj → NextArg
deriving DecidableEq

/-- Embed a valid successor (node identity or terminal marker) as an
argument. -/
def NextArg.ofOpt : Option Nat → NextArg
  | Option.none => NextArg.none
  | some i => NextArg.node i

/-- Pair a successful construction with an `ok` result. -/
def okPair (p : SllState × Nat) : SllState × Except String Nat :=
  (p.1, Except.ok p.2)

/-- Modelled from the spec: the public constructor `make_node`
(`HashNode.__new__`): validate the successor — neither a node nor the
terminal marker fails immediately with a type-mismatch error, leaving the
state untouched — then canonicalize. -/
def make_node (s : SllState) (v : PyObj) (nxt : NextArg) :
    SllState × Except String Nat :=
  match nxt with
  | NextArg.other _ => (s, Except.error "next_node must be a HashNode or None")
  | NextArg.none => okPair (makeNodeOk s v Option.none)
  | NextArg.node j => okPair (makeNodeOk s v (some j))

/-- Modelled from the spec: `make_chain` (`HashNode.from_iterable`):
build the chain tail-first, canonicalizing each cell against its
already-built successor; the empty iterable gives the terminal marker. -/
def make_chain (s : SllState) : List PyObj → SllState × Option Nat
  | [] => (s, Option.none)
  | v :: rest =>
      let p := make_chain s rest
      let q := makeNodeOk p.1 v p.2
      (q.1, some q.2)

/-- Modelled from the spec: the diagnostic hook `count_live_nodes`
(`HashNode.count_instances`): how many canonical nodes currently exist. -/
def count_live_nodes (s : SllState) : Nat := s.nodes.length

/-- No two live nodes carry the same canonical key (the table invariant:
at most one live node per `(value, next)` key). -/
def distinctKeys : List Node → Bool
  | [] => true
  | nd :: rest => rest.all (fun m => !(keyEqB nd m)) && distinctKeys rest

/-- All node identities are pairwise distinct. -/
def nodupIds : List Node → Bool
  | [] => true
  | nd :: rest => rest.all (fun m => !(m.id == nd.id)) && nodupIds rest

/-- Every allocated identity is below the fresh supply. -/
def idsBelow (nodes : List Node) (f : Nat) : Bool :=
  nodes.all (fun nd => decide (nd.id < f))

/-- Well-formedness of a state: distinct canonical keys, distinct
identities, and all identities below the fresh supply. -/
def WF (s : SllState) : Bool :=
  distinctKeys s.nodes && nodupIds s.nodes && idsBelow s.nodes s.fresh

lemma keyEqB_symm {a b : Node} (h : keyEqB a b = true) : keyEqB b a = true := by
  rcases Bool.and_eq_true_iff.mp h with ⟨h1, h2⟩
  exact Bool.and_eq_true_iff.mpr
    ⟨boxEq_symm h1, by rw [beq_comm b.next a.next]; exact h2⟩

lemma keyMatches_eq_keyEqB (a b : Node) :
    keyMatches a.value a.next b = keyEqB a b := rfl

/-- In a key-distinct node list, two nodes with equal canonical keys are
the same node. -/
lemma distinctKeys_uniq : ∀ {l : List Node}, distinctKeys l = true →
    ∀ {a b : Node}, a ∈ l → b ∈ l → keyEqB a b = true → a = b := by
  intro l
  induction l with
  | nil => intro _ a b ha; cases ha
  | cons nd rest ih =>
      intro hd a b ha hb hk
      rcases Bool.and_eq_true_iff.mp hd with ⟨hall, hrest⟩
      have hall' := List.all_eq_true.mp hall
      rcases List.mem_cons.mp ha with ha' | ha' <;>
        rcases List.mem_cons.mp hb with hb' | hb'
      · rw [ha', hb']
      · exfalso
        subst ha'
        have := hall' b hb'
        simp [hk] at this
      · exfalso
        subst hb'
        have := hall' a ha'
        simp [keyEqB_symm hk] at this
      · exact ih hrest ha' hb' hk

/-- In an id-distinct node list, two nodes with the same identity are the
same node. -/
lemma nodupIds_uniq : ∀ {l : List Node}, nodupIds l = true →
    ∀ {a b : Node}, a ∈ l → b ∈ l → a.id = b.id → a = b := by
  intro l
  induction l with
  | nil => intro _ a b ha; cases ha
  | cons nd rest ih =>
      intro hd a b ha hb hk
      rcases Bool.and_eq_true_iff.mp hd with ⟨hall, hrest⟩
      have hall' := List.all_eq_true.mp hall
      rcases List.mem_cons.mp ha with ha' | ha' <;>
        rcases List.mem_cons.mp hb with hb' | hb'
      · rw [ha', hb']
      · exfalso
        subst ha'
        have := hall' b hb'
        simp [← hk] at this
      · exfalso
        subst hb'
        have := hall' a ha'
        simp [hk] at this
      · exact ih hrest ha' hb' hk

lemma WF_distinctKeys {s : SllState} (h : WF s = true) : distinctKeys s.nodes = true := by
  have := Bool.and_eq_true_iff.mp h
  exact (Bool.and_eq_true_iff.mp this.1).1

lemma WF_nodupIds {s : SllState} (h : WF s = true) : nodupIds s.nodes = true := by
  have := Bool.and_eq_true_iff.mp h
  exact (Bool.and_eq_true_iff.mp this.1).2

lemma WF_idsBelow {s : SllState} (h : WF s = true) : idsBelow s.nodes s.fresh = true := by
  exact (Bool.and_eq_true_iff.mp h).2

lemma idsBelow_lt {nodes : List Node} {f : Nat} (h : idsBelow nodes f = true)
    {nd : Node} (hm : nd ∈ nodes) : nd.id < f := by
  have := List.all_eq_true.mp h nd hm
  exact of_decide_eq_true this

/-- If some node of `l` satisfies `p`, `find?` returns a result. -/
lemma find?_isSome_of_mem {l : List Node} {p : Node → Bool} {nd : Node}
    (hm : nd ∈ l) (hp : p nd = true) : ∃ m, l.find? p = some m := by
  cases hf : l.find? p with
  | some m => exact ⟨m, rfl⟩
  | none =>
      exfalso
      have := List.find?_eq_none.mp hf nd hm
      simp [hp] at this

/-- With distinct keys, a `find?` for a key matched by `nd` returns `nd`
itself. -/
lemma find?_key_unique {s : SllState} (hwf : WF s = true)
    {v : PyObj} {o : Option Nat} {nd : Node}
    (hm : nd ∈ s.nodes) (hp : keyMatches v o nd = true) :
    s.nodes.find? (keyMatches v o) = some nd := by
  obtain ⟨m, hfm⟩ := find?_isSome_of_mem hm hp
  have hpm : keyMatches v o m = true := List.find?_some hfm
  have hmm : m ∈ s.nodes := List.mem_of_find?_eq_some hfm
  rcases Bool.and_eq_true_iff.mp hpm with ⟨hbm, hnm⟩
  rcases Bool.and_eq_true_iff.mp hp with ⟨hbn, hnn⟩
  have hkey : keyEqB m nd = true := by
    refine Bool.and_eq_true_iff.mpr ⟨boxEq_trans (boxEq_symm hbm) hbn, ?_⟩
    have h1 : o = m.next := beq_iff_eq.mp hnm
    have h2 : o = nd.next := beq_iff_eq.mp hnn
    exact beq_iff_eq.mpr (by rw [← h1, h2])
  have := distinctKeys_uniq (WF_distinctKeys hwf) hmm hm hkey
  rw [hfm, this]

/-- The node a construction call returns: it is live afterwards, carries
the requested key, and bears the returned identity. -/
lemma makeNodeOk_spec (s : SllState) (v : PyObj) (o : Option Nat) :
    ∃ nd ∈ (makeNodeOk s v o).1.nodes,
      nd.id = (makeNodeOk s v o).2 ∧ boxEq v nd.value = true ∧ nd.next = o := by
  cases hf : s.nodes.find? (keyMatches v o) with
  | some nd =>
      refine ⟨nd, ?_, ?_, ?_, ?_⟩
      · simp [makeNodeOk, hf]
        exact List.mem_of_find?_eq_some hf
      · simp [makeNodeOk, hf]
      · have hk : keyMatches v o nd = true := List.find?_some hf
        exact (Bool.and_eq_true_iff.mp hk).1
      · have hk : keyMatches v o nd = true := List.find?_some hf
        exact (beq_iff_eq.mp (Bool.and_eq_true_iff.mp hk).2).symm
  | none =>
      refine ⟨⟨s.fresh, v, o⟩, ?_, ?_, boxEq_refl v, rfl⟩
      · simp [makeNodeOk, hf]
      · simp [makeNodeOk, hf]

/-- Construction never removes a live node. -/
lemma makeNodeOk_mono {s : SllState} {v : PyObj} {o : Option Nat}
    {x : Node} (hx : x ∈ s.nodes) : x ∈ (makeNodeOk s v o).1.nodes := by
  cases hf : s.nodes.find? (keyMatches v o) with
  | some nd => simpa [makeNodeOk, hf] using hx
  | none => simp [makeNodeOk, hf]; right; exact hx

/-- Construction never lowers the fresh identity supply. -/
lemma makeNodeOk_fresh_mono (s : SllState) (v : PyObj) (o : Option Nat) :
    s.fresh ≤ (makeNodeOk s v o).1.fresh := by
  cases hf : s.nodes.find? (keyMatches v o) with
  | some nd => simp [makeNodeOk, hf]
  | none => simp [makeNodeOk, hf]

/-- Construction preserves well-formedness. -/
lemma WF_makeNodeOk {s : SllState} (hwf : WF s = true) (v : PyObj) (o : Option Nat) :
    WF (makeNodeOk s v o).1 = true := by
  cases hf : s.nodes.find? (keyMatches v o) with
  | some nd => simpa [makeNodeOk, hf] using hwf
  | none =>
      have hnone := List.find?_eq_none.mp hf
      simp only [makeNodeOk, hf]
      refine Bool.and_eq_true_iff.mpr ⟨Bool.and_eq_true_iff.mpr ⟨?_, ?_⟩, ?_⟩
      · show distinctKeys (⟨s.fresh, v, o⟩ :: s.nodes) = true
        refine Bool.and_eq_true_iff.mpr ⟨List.all_eq_true.mpr ?_, WF_distinctKeys hwf⟩
        intro m hm
        have : ¬ keyMatches v o m = true := by
          intro hk
          exact (hnone m hm) hk
        have : keyEqB ⟨s.fresh, v, o⟩ m = false := by
          cases hk : keyEqB ⟨s.fresh, v, o⟩ m
          · rfl
          · exact absurd hk this
        simp [this]
      · show nodupIds (⟨s.fresh, v, o⟩ :: s.nodes) = true
        refine Bool.and_eq_true_iff.mpr ⟨List.all_eq_true.mpr ?_, WF_nodupIds hwf⟩
        intro m hm
        have hlt := idsBelow_lt (WF_idsBelow hwf) hm
        have : (m.id == s.fresh) = false :=
          beq_eq_false_iff_ne.mpr (Nat.ne_of_lt hlt)
        simp [this]
      · show idsBelow (⟨s.fresh, v, o⟩ :: s.nodes) (s.fresh + 1) = true
        refine List.all_eq_true.mpr ?_
        intro m hm
        rcases List.mem_cons.mp hm with hm' | hm'
        · subst hm'; exact decide_eq_true (Nat.lt_succ_self _)
        · exact decide_eq_true (Nat.lt_succ_of_lt (idsBelow_lt (WF_idsBelow hwf) hm'))

/-- The heart of canonicalization: a second construction request whose
value matches the first under the wrapper equality (identity or ordinary
equality) and whose successor is the identical object returns the very
same node and leaves the state untouched. -/
lemma makeNode_idem {s : SllState} (hwf : WF s = true)
    {v1 v2 : PyObj} (o : Option Nat) (hb : boxEq v1 v2 = true) :
    makeNodeOk (makeNodeOk s v1 o).1 v2 o = makeNodeOk s v1 o := by
  cases hf : s.nodes.find? (keyMatches v1 o) with
  | some nd =>
      have hnd : nd ∈ s.nodes := List.mem_of_find?_eq_some hf
      have hk1 : keyMatches v1 o nd = true := List.find?_some hf
      rcases Bool.and_eq_true_iff.mp hk1 with ⟨hb1, hn1⟩
      have hk2 : keyMatches v2 o nd = true :=
        Bool.and_eq_true_iff.mpr ⟨boxEq_trans (boxEq_symm hb) hb1, hn1⟩
      have hf2 : s.nodes.find? (keyMatches v2 o) = some nd :=
        find?_key_unique hwf hnd hk2
      simp [makeNodeOk, hf, hf2]
  | none =>
      have hnew : keyMatches v2 o ⟨s.fresh, v1, o⟩ = true := by
        refine Bool.and_eq_true_iff.mpr ⟨boxEq_symm hb, ?_⟩
        exact beq_iff_eq.mpr rfl
      simp [makeNodeOk, hf, List.find?_cons_of_pos _ hnew]

/-- `make_node` on a valid successor is `makeNodeOk` with an `ok`
result. -/
lemma make_node_ofOpt (s : SllState) (v : PyObj) (o : Option Nat) :
    make_node s v (NextArg.ofOpt o) = okPair (makeNodeOk s v o) := by
  cases o <;> rfl

/-- **C1.** Canonicalizing construction is idempotent: if `v1 == v2`
under ordinary equality and the same successor object (node or terminal
marker) is passed both times, then — the first node still being live when
the second request is made — the second `make_node` request returns the
identical node object and leaves the store unchanged. -/
theorem C1_canonicalization_identity (s : SllState) (v1 v2 : PyObj)
    (o : Option Nat) (hwf : WF s = true) (heq : pyEq v1 v2 = true) :
    make_node (make_node s v1 (NextArg.ofOpt o)).1 v2 (NextArg.ofOpt o) =
      make_node s v1 (NextArg.ofOpt o) := by
  rw [make_node_ofOpt, make_node_ofOpt]
  show okPair (makeNodeOk (makeNodeOk s v1 o).1 v2 o) = okPair (makeNodeOk s v1 o)
  rw [makeNode_idem hwf o (boxEq_of_pyEq heq)]

/-- Witness for C1 at concrete inputs: two distinct objects with equal
numeric value 5, next the terminal marker, starting from the empty
store. -/
theorem C1_canonicalization_identity_witness :
    WF emptyState = true ∧ pyEq ⟨0, PyData.num 5⟩ ⟨1, PyData.num 5⟩ = true ∧
      make_node (make_node emptyState ⟨0, PyData.num 5⟩
            (NextArg.ofOpt Option.none)).1 ⟨1, PyData.num 5⟩
            (NextArg.ofOpt Option.none) =
        make_node emptyState ⟨0, PyData.num 5⟩ (NextArg.ofOpt Option.none) :=
  ⟨by decide, by decide,
    C1_canonicalization_identity emptyState ⟨0, PyData.num 5⟩ ⟨1, PyData.num 5⟩
      Option.none (by decide) (by decide)⟩

/-- **C3.** Self-unequal (NaN-like) values canonicalize by identity: for
a value `x` with `x != x`, passing the same literal object `x` twice with
the same successor returns the identical node object, and it is the
wrapper's equality rule (equal if wrapped values are equal or are the
literal same object) that decides this: `boxEq x x` holds even though
`pyEq x x` is false. -/
theorem C3_self_unequal_value (s : SllState) (x : PyObj) (o : Option Nat)
    (hwf : WF s = true) (hx : pyEq x x = false) :
    boxEq x x = true ∧
      make_node (make_node s x (NextArg.ofOpt o)).1 x (NextArg.ofOpt o) =
        make_node s x (NextArg.ofOpt o) := by
  refine ⟨boxEq_refl x, ?_⟩
  rw [make_node_ofOpt, make_node_ofOpt]
  show okPair (makeNodeOk (makeNodeOk s x o).1 x o) = okPair (makeNodeOk s x o)
  rw [makeNode_idem hwf o (boxEq_refl x)]

/-- Witness for C3 at concrete inputs: a NaN-like object, next the
terminal marker, starting from the empty store. -/
theorem C3_self_unequal_value_witness :
    WF emptyState = true ∧ pyEq ⟨0, PyData.nan⟩ ⟨0, PyData.nan⟩ = false ∧
      (boxEq ⟨0, PyData.nan⟩ ⟨0, PyData.nan⟩ = true ∧
        make_node (make_node emptyState ⟨0, PyData.nan⟩
              (NextArg.ofOpt Option.none)).1 ⟨0, PyData.nan⟩
              (NextArg.ofOpt Option.none) =
          make_node emptyState ⟨0, PyData.nan⟩ (NextArg.ofOpt Option.none)) :=
  ⟨by decide, by decide,
    C3_self_unequal_value emptyState ⟨0, PyData.nan⟩ Option.none
      (by decide) (by decide)⟩

/-- Decidable equality of constructor results. -/
instance {e a : Type} [DecidableEq e] [DecidableEq a] : DecidableEq (Except e a) :=
  fun x y =>
    match x, y with
    | Except.ok u, Except.ok w =>
        if h : u = w then Decidable.isTrue (by rw [h])
        else Decidable.isFalse (fun hc => by cases hc; exact h rfl)
    | Except.error u, Except.error w =>
        if h : u = w then Decidable.isTrue (by rw [h])
        else Decidable.isFalse (fun hc => by cases hc; exact h rfl)
    | Except.ok _, Except.error _ => Decidable.isFalse (fun hc => by cases hc)
    | Except.error _, Except.ok _ => Decidable.isFalse (fun hc => by cases hc)

/-- **C2, counterexample.** The claim quantifies over every pair of values
with `v1 != v2`; a NaN-like object `x` passed twice instantiates it
(`x != x` is true), yet the two `make_node` requests return the identical
node, not distinct ones.  So the claim as stated is false. -/
theorem C2_counterexample :
    pyNe ⟨0, PyData.nan⟩ ⟨0, PyData.nan⟩ = true ∧
      (make_node (make_node emptyState ⟨0, PyData.nan⟩ NextArg.none).1
          ⟨0, PyData.nan⟩ NextArg.none).2 =
        (make_node emptyState ⟨0, PyData.nan⟩ NextArg.none).2 := by
  refine ⟨by decide, by decide⟩

/-- **C2, amended.** Non-aliasing on divergence, restricted to values
that are not the literal same object: if `v1 != v2` and `v1 is not v2`,
`make_node(v1, n)` and `make_node(v2, n)` return distinct nodes; and for
any value, successors that are not the identical object give distinct
nodes. -/
theorem C2_nonaliasing_amended (s : SllState) (v1 v2 v : PyObj)
    (o o1 o2 : Option Nat) (hwf : WF s = true)
    (hne : pyEq v1 v2 = false) (hid : v1 ≠ v2) (ho : o1 ≠ o2) :
    (make_node (make_node s v1 (NextArg.ofOpt o)).1 v2 (NextArg.ofOpt o)).2 ≠
        (make_node s v1 (NextArg.ofOpt o)).2 ∧
      (make_node (make_node s v (NextArg.ofOpt o1)).1 v (NextArg.ofOpt o2)).2 ≠
        (make_node s v (NextArg.ofOpt o1)).2 := by
  constructor
  · rw [make_node_ofOpt, make_node_ofOpt]
    show Except.ok (makeNodeOk (makeNodeOk s v1 o).1 v2 o).2 ≠
      Except.ok (makeNodeOk s v1 o).2
    intro hc
    have hii : (makeNodeOk (makeNodeOk s v1 o).1 v2 o).2 =
        (makeNodeOk s v1 o).2 := by
      injection hc
    obtain ⟨nd1, hm1, hid1, hb1, -⟩ := makeNodeOk_spec s v1 o
    obtain ⟨nd2, hm2, hid2, hb2, -⟩ :=
      makeNodeOk_spec (makeNodeOk s v1 o).1 v2 o
    have hwf2 : WF (makeNodeOk (makeNodeOk s v1 o).1 v2 o).1 = true :=
      WF_makeNodeOk (WF_makeNodeOk hwf v1 o) v2 o
    have hm1' : nd1 ∈ (makeNodeOk (makeNodeOk s v1 o).1 v2 o).1.nodes :=
      makeNodeOk_mono hm1
    have heqnd : nd2 = nd1 :=
      nodupIds_uniq (WF_nodupIds hwf2) hm2 hm1' (by rw [hid1, hid2, hii])
    have hbox : boxEq v1 v2 = true := by
      refine boxEq_trans hb1 (boxEq_symm ?_)
      rw [← heqnd] at hb1 ⊢
      exact hb2
    rcases Bool.or_eq_true_iff.mp hbox with h' | h'
    · exact hid (beq_iff_eq.mp h')
    · rw [hne] at h'; cases h'
  · rw [make_node_ofOpt, make_node_ofOpt]
    show Except.ok (makeNodeOk (makeNodeOk s v o1).1 v o2).2 ≠
      Except.ok (makeNodeOk s v o1).2
    intro hc
    have hii : (makeNodeOk (makeNodeOk s v o1).1 v o2).2 =
        (makeNodeOk s v o1).2 := by
      injection hc
    obtain ⟨nd1, hm1, hid1, -, hn1⟩ := makeNodeOk_spec s v o1
    obtain ⟨nd2, hm2, hid2, -, hn2⟩ :=
      makeNodeOk_spec (makeNodeOk s v o1).1 v o2
    have hwf2 : WF (makeNodeOk (makeNodeOk s v o1).1 v o2).1 = true :=
      WF_makeNodeOk (WF_makeNodeOk hwf v o1) v o2
    have hm1' : nd1 ∈ (makeNodeOk (makeNodeOk s v o1).1 v o2).1.nodes :=
      makeNodeOk_mono hm1
    have heqnd : nd2 = nd1 :=
      nodupIds_uniq (WF_nodupIds hwf2) hm2 hm1' (by rw [hid1, hid2, hii])
    apply ho
    rw [← hn1, ← hn2, heqnd]

/-- Witness for the amended C2 at concrete inputs: values 1 and 2 (and 3
for the successor half), successors the terminal marker versus a node
identity. -/
theorem C2_nonaliasing_amended_witness :
    WF emptyState = true ∧ pyEq ⟨0, PyData.num 1⟩ ⟨1, PyData.num 2⟩ = false ∧
      (⟨0, PyData.num 1⟩ : PyObj) ≠ ⟨1, PyData.num 2⟩ ∧
      (Option.none : Option Nat) ≠ some 0 ∧
      ((make_node (make_node emptyState ⟨0, PyData.num 1⟩
              (NextArg.ofOpt Option.none)).1 ⟨1, PyData.num 2⟩
              (NextArg.ofOpt Option.none)).2 ≠
          (make_node emptyState ⟨0, PyData.num 1⟩ (NextArg.ofOpt Option.none)).2 ∧
        (make_node (make_node emptyState ⟨2, PyData.num 3⟩
              (NextArg.ofOpt Option.none)).1 ⟨2, PyData.num 3⟩
              (NextArg.ofOpt (some 0))).2 ≠
          (make_node emptyState ⟨2, PyData.num 3⟩ (NextArg.ofOpt Option.none)).2) :=
  ⟨by decide, by decide, by decide, by decide,
    C2_nonaliasing_amended emptyState ⟨0, PyData.num 1⟩ ⟨1, PyData.num 2⟩
      ⟨2, PyData.num 3⟩ Option.none Option.none (some 0)
      (by decide) (by decide) (by decide) (by decide)⟩

set_option linter.unusedVariables false

/-- **C6.** Invalid successor rejection: a `next` argument that is
neither a node nor the terminal marker fails immediately with the
type-mismatch error and the store is left untouched (no node created, no
table entry inserted); and for every argument whatsoever the caller sees
either a returned node or that raised type error — nothing else. -/
theorem C6_invalid_successor (s : SllState) (v : PyObj) :
    (∀ m : PyObj, make_node s v (NextArg.other m) =
        (s, Except.error "next_node must be a HashNode or None")) ∧
      ∀ nxt : NextArg,
        (∃ i : Nat, (make_node s v nxt).2 = Except.ok i) ∨
          ((make_node s v nxt).1 = s ∧
            (make_node s v nxt).2 =
              Except.error "next_node must be a HashNode or None") := by
  refine ⟨fun m => rfl, fun nxt => ?_⟩
  cases nxt with
  | other m => exact Or.inr ⟨rfl, rfl⟩
  | none => exact Or.inl ⟨(makeNodeOk s v Option.none).2, rfl⟩
  | node j => exact Or.inl ⟨(makeNodeOk s v (some j)).2, rfl⟩

/-- A chain for the value sequence `vs` hanging from `h` is fully present
among the live nodes: empty sequence at the terminal marker, otherwise a
live node with a wrapper-equal value whose successor carries the rest. -/
def ChainFor (nodes : List Node) : List PyObj → Option Nat → Prop
  | [], h => h = Option.none
  | v :: rest, h =>
      ∃ nd ∈ nodes, h = some nd.id ∧ boxEq v nd.value = true ∧
        ChainFor nodes rest nd.next

/-- A present chain stays present when nodes are added. -/
lemma ChainFor_mono {nodes nodes' : List Node}
    (hsub : ∀ x ∈ nodes, x ∈ nodes') :
    ∀ {vs : List PyObj} {h : Option Nat},
      ChainFor nodes vs h → ChainFor nodes' vs h := by
  intro vs
  induction vs with
  | nil => intro h hc; exact hc
  | cons v rest ih =>
      intro h hc
      obtain ⟨nd, hm, hh, hb, hrest⟩ := hc
      exact ⟨nd, hsub nd hm, hh, hb, ih hrest⟩

/-- Chain building preserves well-formedness. -/
lemma WF_make_chain {s : SllState} (hwf : WF s = true) :
    ∀ vs : List PyObj, WF (make_chain s vs).1 = true := by
  intro vs
  induction vs with
  | nil => exact hwf
  | cons v rest ih =>
      show WF (makeNodeOk (make_chain s rest).1 v (make_chain s rest).2).1 = true
      exact WF_makeNodeOk ih v _

/-- Chain building never removes a live node. -/
lemma make_chain_mono {s : SllState} {x : Node} (hx : x ∈ s.nodes) :
    ∀ vs : List PyObj, x ∈ (make_chain s vs).1.nodes := by
  intro vs
  induction vs with
  | nil => exact hx
  | cons v rest ih =>
      show x ∈ (makeNodeOk (make_chain s rest).1 v (make_chain s rest).2).1.nodes
      exact makeNodeOk_mono ih

/-- After building a chain, the whole chain is present and hangs from the
returned head. -/
lemma make_chain_ChainFor (s : SllState) :
    ∀ vs : List PyObj,
      ChainFor (make_chain s vs).1.nodes vs (make_chain s vs).2 := by
  intro vs
  induction vs with
  | nil => rfl
  | cons v rest ih =>
      obtain ⟨nd, hm, hid, hb, hn⟩ :=
        makeNodeOk_spec (make_chain s rest).1 v (make_chain s rest).2
      refine ⟨nd, hm, ?_, hb, ?_⟩
      · show some (makeNodeOk (make_chain s rest).1 v (make_chain s rest).2).2 =
          some nd.id
        rw [hid]
      · rw [hn]
        exact ChainFor_mono (fun x hx => makeNodeOk_mono hx) ih

/-- Python sequence equality between two value lists: elementwise the
values are the literal same object or compare equal (containers check
identity before equality, which is how a list holding NaN equals
itself). -/
def pySeqEq : List PyObj → List PyObj → Bool
  | [], [] => true
  | x :: xs, y :: ys => ((x == y) || pyEq x y) && pySeqEq xs ys
  | _, _ => false

lemma pySeqEq_boxEq {x y : PyObj} {xs ys : List PyObj}
    (h : pySeqEq (x :: xs) (y :: ys) = true) :
    boxEq x y = true ∧ pySeqEq xs ys = true := by
  exact Bool.and_eq_true_iff.mp h

/-- Rebuilding a wrapper-equal value sequence over a store that already
holds its chain is a pure cache hit: the store is unchanged and the very
same head comes back. -/
lemma make_chain_hit {u : SllState} (hwf : WF u = true) :
    ∀ {vs1 vs2 : List PyObj} {h : Option Nat},
      ChainFor u.nodes vs1 h → pySeqEq vs1 vs2 = true →
        make_chain u vs2 = (u, h) := by
  intro vs1
  induction vs1 with
  | nil =>
      intro vs2 h hc hs
      cases vs2 with
      | nil => rw [hc]; rfl
      | cons y ys => simp [pySeqEq] at hs
  | cons v rest ih =>
      intro vs2 h hc hs
      cases vs2 with
      | nil => simp [pySeqEq] at hs
      | cons y ys =>
          obtain ⟨hb, hs'⟩ := pySeqEq_boxEq hs
          obtain ⟨nd, hm, hh, hbv, hrest⟩ := hc
          have htail : make_chain u ys = (u, nd.next) := ih hrest hs'
          show (makeNodeOk (make_chain u ys).1 y (make_chain u ys).2 |>.1,
              some (makeNodeOk (make_chain u ys).1 y (make_chain u ys).2 |>.2)) =
            (u, h)
          rw [htail]
          have hk : keyMatches y nd.next nd = true := by
            refine Bool.and_eq_true_iff.mpr
              ⟨boxEq_trans (boxEq_symm hb) hbv, beq_iff_eq.mpr rfl⟩
          have hf : u.nodes.find? (keyMatches y nd.next) = some nd :=
            find?_key_unique hwf hm hk
          show (makeNodeOk u y nd.next |>.1, some (makeNodeOk u y nd.next |>.2)) =
            (u, h)
          rw [hh]
          simp [makeNodeOk, hf]

/-- Modelled from the spec: `sll.traverse` is a lazy generator that walks
`value`/`next_node` attributes of any node-like objects.  `traverseTake
nodes fuel h` is the list of the first `fuel` values it yields when
started on `h` over the node-like heap `nodes`; the generator stops early
at the terminal marker, and a dangling identity yields nothing further. -/
def traverseTake (nodes : List Node) : Nat → Option Nat → List PyObj
  | 0, _ => []
  | _ + 1, Option.none => []
  | fuel + 1, some i =>
      match nodes.find? (fun nd => nd.id == i) with
      | Option.none => []
      | some nd => nd.value :: traverseTake nodes fuel nd.next

/-- With distinct identities, looking a live node up by its identity
finds exactly it. -/
lemma find?_id_unique : ∀ {l : List Node}, nodupIds l = true →
    ∀ {nd : Node}, nd ∈ l → l.find? (fun m => m.id == nd.id) = some nd := by
  intro l
  induction l with
  | nil => intro _ nd hm; cases hm
  | cons m rest ih =>
      intro hd nd hm
      rcases Bool.and_eq_true_iff.mp hd with ⟨hall, hrest⟩
      rcases List.mem_cons.mp hm with hm' | hm'
      · subst hm'
        exact List.find?_cons_of_pos _ (beq_iff_eq.mpr rfl)
      · have hne := List.all_eq_true.mp hall nd hm'
        have : (m.id == nd.id) = false := by
          cases hmi : (m.id == nd.id)
          · rfl
          · exfalso
            have : nd.id = m.id := (beq_iff_eq.mp hmi).symm
            simp [this] at hne
        rw [List.find?_cons_of_neg _ (by simp [this]), ih hrest hm']

/-- Traversing a present chain with enough fuel yields exactly its value
sequence (under Python sequence equality). -/
lemma traverse_ChainFor {nodes : List Node} (hnd : nodupIds nodes = true) :
    ∀ {vs : List PyObj} {h : Option Nat} {fuel : Nat},
      ChainFor nodes vs h → vs.length ≤ fuel →
        pySeqEq (traverseTake nodes fuel h) vs = true := by
  intro vs
  induction vs with
  | nil =>
      intro h fuel hc hf
      have : h = Option.none := hc
      subst this
      cases fuel <;> rfl
  | cons v rest ih =>
      intro h fuel hc hf
      obtain ⟨nd, hm, hh, hb, hrest⟩ := hc
      subst hh
      cases fuel with
      | zero => exact absurd hf (by simp)
      | succ f =>
          have hfind := find?_id_unique hnd hm
          show pySeqEq
            (match nodes.find? (fun m => m.id == nd.id) with
              | Option.none => []
              | some m => m.value :: traverseTake nodes f m.next) (v :: rest) = true
          rw [hfind]
          refine Bool.and_eq_true_iff.mpr ⟨boxEq_symm hb, ?_⟩
          exact ih hrest (Nat.le_of_succ_le_succ hf)

/-- **C5.** Chain building is correct and canonical: the empty iterable
gives the terminal marker; the values read front to back from the built
head equal the input sequence in order; and a second `make_chain` over an
equal value sequence, made while the first chain is alive, returns the
identical head node and leaves the store unchanged. -/
theorem C5_chain_building (s : SllState) (vs1 vs2 : List PyObj) (fuel : Nat)
    (hwf : WF s = true) (hseq : pySeqEq vs1 vs2 = true)
    (hfuel : vs1.length ≤ fuel) :
    make_chain s ([] : List PyObj) = (s, Option.none) ∧
      pySeqEq (traverseTake (make_chain s vs1).1.nodes fuel
          (make_chain s vs1).2) vs1 = true ∧
      make_chain (make_chain s vs1).1 vs2 = make_chain s vs1 := by
  have hwf1 : WF (make_chain s vs1).1 = true := WF_make_chain hwf vs1
  have hch := make_chain_ChainFor s vs1
  refine ⟨rfl, ?_, ?_⟩
  · exact traverse_ChainFor (WF_nodupIds hwf1) hch hfuel
  · have := make_chain_hit hwf1 hch hseq
    rw [this]

/-- Witness for C5 at concrete inputs: the sequence `[1, 2, 3, 4]` (the
second copy with different object identities but equal values), starting
from the empty store. -/
theorem C5_chain_building_witness :
    WF emptyState = true ∧
      pySeqEq [⟨0, PyData.num 1⟩, ⟨1, PyData.num 2⟩, ⟨2, PyData.num 3⟩,
          ⟨3, PyData.num 4⟩]
        [⟨4, PyData.num 1⟩, ⟨5, PyData.num 2⟩, ⟨6, PyData.num 3⟩,
          ⟨7, PyData.num 4⟩] = true ∧
      ([⟨0, PyData.num 1⟩, ⟨1, PyData.num 2⟩, ⟨2, PyData.num 3⟩,
          (⟨3, PyData.num 4⟩ : PyObj)].length ≤ 4) ∧
      (make_chain emptyState ([] : List PyObj) = (emptyState, Option.none) ∧
        pySeqEq (traverseTake (make_chain emptyState
              [⟨0, PyData.num 1⟩, ⟨1, PyData.num 2⟩, ⟨2, PyData.num 3⟩,
                ⟨3, PyData.num 4⟩]).1.nodes 4
            (make_chain emptyState
              [⟨0, PyData.num 1⟩, ⟨1, PyData.num 2⟩, ⟨2, PyData.num 3⟩,
                ⟨3, PyData.num 4⟩]).2)
          [⟨0, PyData.num 1⟩, ⟨1, PyData.num 2⟩, ⟨2, PyData.num 3⟩,
            ⟨3, PyData.num 4⟩] = true ∧
        make_chain (make_chain emptyState
            [⟨0, PyData.num 1⟩, ⟨1, PyData.num 2⟩, ⟨2, PyData.num 3⟩,
              ⟨3, PyData.num 4⟩]).1
          [⟨4, PyData.num 1⟩, ⟨5, PyData.num 2⟩, ⟨6, PyData.num 3⟩,
            ⟨7, PyData.num 4⟩] =
          make_chain emptyState
            [⟨0, PyData.num 1⟩, ⟨1, PyData.num 2⟩, ⟨2, PyData.num 3⟩,
              ⟨3, PyData.num 4⟩]) :=
  ⟨by decide, by decide, by decide,
    C5_chain_building emptyState
      [⟨0, PyData.num 1⟩, ⟨1, PyData.num 2⟩, ⟨2, PyData.num 3⟩,
        ⟨3, PyData.num 4⟩]
      [⟨4, PyData.num 1⟩, ⟨5, PyData.num 2⟩, ⟨6, PyData.num 3⟩,
        ⟨7, PyData.num 4⟩] 4 (by decide) (by decide) (by decide)⟩

/-- Modelled from the spec: `HashNode` does not override `__eq__`, so
node equality is the language default — identity.  Two node references
are `==` exactly when they are the same object. -/
def nodeEq (a b : Node) : Bool := a.id == b.id

/-- **C9.** Node equality is identity: among the live nodes, `a == b`
holds exactly when `a` and `b` are the identical object; consequently two
chains built from equal value sequences compare equal precisely because
canonicalization hands back the identical head object (so a set of such
references has size one). -/
theorem C9_node_equality_is_identity (s : SllState) (vs1 vs2 : List PyObj)
    (a b : Node) (hwf : WF s = true) (ha : a ∈ s.nodes) (hb : b ∈ s.nodes)
    (hseq : pySeqEq vs1 vs2 = true) :
    (nodeEq a b = true ↔ a = b) ∧
      (make_chain (make_chain s vs1).1 vs2).2 = (make_chain s vs1).2 := by
  constructor
  · constructor
    · intro h
      exact nodupIds_uniq (WF_nodupIds hwf) ha hb (beq_iff_eq.mp h)
    · intro h
      subst h
      exact beq_iff_eq.mpr rfl
  · have hwf1 : WF (make_chain s vs1).1 = true := WF_make_chain hwf vs1
    rw [make_chain_hit hwf1 (make_chain_ChainFor s vs1) hseq]

/-- Witness for C9 at concrete inputs: a store holding one node, compared
with itself, and the chains for two copies of the sequence `[7]`. -/
theorem C9_node_equality_is_identity_witness :
    WF ⟨[⟨0, ⟨0, PyData.num 7⟩, Option.none⟩], 1⟩ = true ∧
      (⟨0, ⟨0, PyData.num 7⟩, Option.none⟩ : Node) ∈
        (⟨[⟨0, ⟨0, PyData.num 7⟩, Option.none⟩], 1⟩ : SllState).nodes ∧
      pySeqEq [⟨1, PyData.num 7⟩] [⟨2, PyData.num 7⟩] = true ∧
      ((nodeEq ⟨0, ⟨0, PyData.num 7⟩, Option.none⟩
            ⟨0, ⟨0, PyData.num 7⟩, Option.none⟩ = true ↔
          (⟨0, ⟨0, PyData.num 7⟩, Option.none⟩ : Node) =
            ⟨0, ⟨0, PyData.num 7⟩, Option.none⟩) ∧
        (make_chain (make_chain ⟨[⟨0, ⟨0, PyData.num 7⟩, Option.none⟩], 1⟩
              [⟨1, PyData.num 7⟩]).1 [⟨2, PyData.num 7⟩]).2 =
          (make_chain ⟨[⟨0, ⟨0, PyData.num 7⟩, Option.none⟩], 1⟩
            [⟨1, PyData.num 7⟩]).2) :=
  ⟨by decide, by decide, by decide,
    C9_node_equality_is_identity ⟨[⟨0, ⟨0, PyData.num 7⟩, Option.none⟩], 1⟩
      [⟨1, PyData.num 7⟩] [⟨2, PyData.num 7⟩]
      ⟨0, ⟨0, PyData.num 7⟩, Option.none⟩ ⟨0, ⟨0, PyData.num 7⟩, Option.none⟩
      (by decide) (by decide) (by decide) (by decide)⟩

/-- Modelled from the spec: the strong references a live node transitively
holds — following `next` from a root node keeps the whole suffix chain
alive.  `chainFrom nodes fuel i` lists the node identities reachable from
`i` along `next`, with enough fuel to exhaust any acyclic chain. -/
def chainFrom (nodes : List Node) : Nat → Nat → List Nat
  | 0, _ => []
  | fuel + 1, i =>
      match nodes.find? (fun nd => nd.id == i) with
      | Option.none => []
      | some nd =>
          match nd.next with
          | Option.none => [i]
          | some j => i :: chainFrom nodes fuel j

/-- Identities reachable from any of the given roots. -/
def liveIdsFrom (nodes : List Node) (fuel : Nat) : List Nat → List Nat
  | [] => []
  | r :: rs => chainFrom nodes fuel r ++ liveIdsFrom nodes fuel rs

/-- Modelled from the spec: the node identities still reachable from the
client's strong references (`roots`). -/
def liveIds (s : SllState) (roots : List Nat) : List Nat :=
  liveIdsFrom s.nodes (s.nodes.length + 1) roots

/-- Modelled from the spec: a forced collection pass — every node no
longer reachable from any root is reclaimed, and the weak-value table
drops its entry automatically.  The fresh-identity supply is unaffected,
so a reclaimed identity is never reissued. -/
def collect (s : SllState) (roots : List Nat) : SllState :=
  ⟨s.nodes.filter (fun nd => (liveIds s roots).contains nd.id), s.fresh⟩

lemma distinctKeys_filter (p : Node → Bool) : ∀ {l : List Node},
    distinctKeys l = true → distinctKeys (l.filter p) = true := by
  intro l
  induction l with
  | nil => intro _; rfl
  | cons nd rest ih =>
      intro h
      rcases Bool.and_eq_true_iff.mp h with ⟨hall, hrest⟩
      rw [List.filter_cons]
      by_cases hp : p nd = true
      · simp only [hp, if_true]
        refine Bool.and_eq_true_iff.mpr ⟨List.all_eq_true.mpr ?_, ih hrest⟩
        intro m hm
        exact List.all_eq_true.mp hall m (List.mem_of_mem_filter hm)
      · simp only [hp, if_false]
        exact ih hrest

lemma nodupIds_filter (p : Node → Bool) : ∀ {l : List Node},
    nodupIds l = true → nodupIds (l.filter p) = true := by
  intro l
  induction l with
  | nil => intro _; rfl
  | cons nd rest ih =>
      intro h
      rcases Bool.and_eq_true_iff.mp h with ⟨hall, hrest⟩
      rw [List.filter_cons]
      by_cases hp : p nd = true
      · simp only [hp, if_true]
        refine Bool.and_eq_true_iff.mpr ⟨List.all_eq_true.mpr ?_, ih hrest⟩
        intro m hm
        exact List.all_eq_true.mp hall m (List.mem_of_mem_filter hm)
      · simp only [hp, if_false]
        exact ih hrest

lemma idsBelow_filter (p : Node → Bool) {l : List Node} {f : Nat}
    (h : idsBelow l f = true) : idsBelow (l.filter p) f = true := by
  refine List.all_eq_true.mpr ?_
  intro m hm
  exact List.all_eq_true.mp h m (List.mem_of_mem_filter hm)

/-- Collection preserves well-formedness. -/
lemma WF_collect {s : SllState} (hwf : WF s = true) (roots : List Nat) :
    WF (collect s roots) = true := by
  refine Bool.and_eq_true_iff.mpr ⟨Bool.and_eq_true_iff.mpr ⟨?_, ?_⟩, ?_⟩
  · exact distinctKeys_filter _ (WF_distinctKeys hwf)
  · exact nodupIds_filter _ (WF_nodupIds hwf)
  · exact idsBelow_filter _ (WF_idsBelow hwf)

lemma length_filter_lt {p : Node → Bool} : ∀ {l : List Node} {nd : Node},
    nd ∈ l → p nd = false → (l.filter p).length < l.length := by
  intro l
  induction l with
  | nil => intro nd hm; cases hm
  | cons m rest ih =>
      intro nd hm hp
      rw [List.filter_cons]
      rcases List.mem_cons.mp hm with hm' | hm'
      · subst hm'
        simp only [hp, if_false]
        exact Nat.lt_succ_of_le (List.length_filter_le p rest)
      · by_cases hq : p m = true
        · simp only [hq, if_true]
          exact Nat.succ_lt_succ (ih hm' hp)
        · simp only [eq_false_of_ne_true hq, if_false]
          exact Nat.lt_succ_of_lt (ih hm' hp)

/-- **C4.** No stale entries, reclaim and rebuild: when every strong
reference to a node has been dropped (it is unreachable from all roots)
and a collection pass is forced, the node is reclaimed — the live count
drops and equals the number of still-reachable nodes, the table stays
well-formed (at most one live node per key, no reclaimed node in it) —
and a subsequent construction request for the same `(value, next)` key
misses and allocates a brand-new node under a never-used identity, never
the dead one. -/
theorem C4_reclaim_and_rebuild (s : SllState) (roots : List Nat) (nd : Node)
    (hwf : WF s = true) (hmem : nd ∈ s.nodes)
    (hdead : (liveIds s roots).contains nd.id = false) :
    count_live_nodes (collect s roots) < count_live_nodes s ∧
      nd ∉ (collect s roots).nodes ∧
      count_live_nodes (collect s roots) =
        s.nodes.countP (fun m => (liveIds s roots).contains m.id) ∧
      WF (collect s roots) = true ∧
      (makeNodeOk (collect s roots) nd.value nd.next).2 = s.fresh ∧
      nd.id ≠ s.fresh ∧
      (makeNodeOk (collect s roots) nd.value nd.next).1.nodes.length =
        (collect s roots).nodes.length + 1 := by
  have hndlt : nd.id < s.fresh := idsBelow_lt (WF_idsBelow hwf) hmem
  have hnone : (collect s roots).nodes.find? (keyMatches nd.value nd.next) =
      Option.none := by
    refine List.find?_eq_none.mpr ?_
    intro m hm hk
    have hm' := List.mem_filter.mp hm
    have hkey : keyEqB nd m = true := hk
    have : nd = m := distinctKeys_uniq (WF_distinctKeys hwf) hmem hm'.1 hkey
    rw [← this] at hm'
    rw [hdead] at hm'
    exact absurd hm'.2 (by simp)
  refine ⟨?_, ?_, ?_, WF_collect hwf roots, ?_, Nat.ne_of_lt hndlt, ?_⟩
  · exact length_filter_lt hmem hdead
  · intro hc
    have := (List.mem_filter.mp hc).2
    rw [hdead] at this
    exact absurd this (by simp)
  · exact (List.countP_eq_length_filter _ _).symm
  · simp only [makeNodeOk, hnone]
    rfl
  · simp only [makeNodeOk, hnone, List.length_cons]

/-- Witness for C4 at concrete inputs: a store holding one node, all
roots dropped. -/
theorem C4_reclaim_and_rebuild_witness :
    WF ⟨[⟨0, ⟨0, PyData.num 7⟩, Option.none⟩], 1⟩ = true ∧
      (⟨0, ⟨0, PyData.num 7⟩, Option.none⟩ : Node) ∈
        (⟨[⟨0, ⟨0, PyData.num 7⟩, Option.none⟩], 1⟩ : SllState).nodes ∧
      (liveIds ⟨[⟨0, ⟨0, PyData.num 7⟩, Option.none⟩], 1⟩ []).contains 0 = false ∧
      (count_live_nodes (collect ⟨[⟨0, ⟨0, PyData.num 7⟩, Option.none⟩], 1⟩ []) <
          count_live_nodes ⟨[⟨0, ⟨0, PyData.num 7⟩, Option.none⟩], 1⟩ ∧
        (⟨0, ⟨0, PyData.num 7⟩, Option.none⟩ : Node) ∉
          (collect ⟨[⟨0, ⟨0, PyData.num 7⟩, Option.none⟩], 1⟩ []).nodes ∧
        count_live_nodes (collect ⟨[⟨0, ⟨0, PyData.num 7⟩, Option.none⟩], 1⟩ []) =
          (⟨[⟨0, ⟨0, PyData.num 7⟩, Option.none⟩], 1⟩ : SllState).nodes.countP
            (fun m => (liveIds ⟨[⟨0, ⟨0, PyData.num 7⟩, Option.none⟩], 1⟩
              []).contains m.id) ∧
        WF (collect ⟨[⟨0, ⟨0, PyData.num 7⟩, Option.none⟩], 1⟩ []) = true ∧
        (makeNodeOk (collect ⟨[⟨0, ⟨0, PyData.num 7⟩, Option.none⟩], 1⟩ [])
            ⟨0, PyData.num 7⟩ Option.none).2 = 1 ∧
        (0 : Nat) ≠ 1 ∧
        (makeNodeOk (collect ⟨[⟨0, ⟨0, PyData.num 7⟩, Option.none⟩], 1⟩ [])
              ⟨0, PyData.num 7⟩ Option.none).1.nodes.length =
          (collect ⟨[⟨0, ⟨0, PyData.num 7⟩, Option.none⟩], 1⟩ []).nodes.length
            + 1) :=
  ⟨by decide, by decide, by decide,
    C4_reclaim_and_rebuild ⟨[⟨0, ⟨0, PyData.num 7⟩, Option.none⟩], 1⟩ []
      ⟨0, ⟨0, PyData.num 7⟩, Option.none⟩ (by decide) (by decide) (by decide)⟩

/-- A straight-line duck-typed heap for the value sequence `vs`: node `i`
holds the `i`-th value and points to node `i + 1`, the last node to the
terminal marker.  `traverse` never checks the type of what it walks, so
any such value/next-shaped structure is traversable. -/
def listHeap (vs : List PyObj) : List Node :=
  (List.range vs.length).map (fun i =>
    ⟨i, vs.getD i dummyObj,
      if i + 1 < vs.length then some (i + 1) else Option.none⟩)

/-- A cyclic duck-typed heap for the value sequence `vs`: node `i` holds
the `i`-th value and points to node `(i + 1) mod length`, so the last
node points back to the first. -/
def cycleHeap (vs : List PyObj) : List Node :=
  (List.range vs.length).map (fun i =>
    ⟨i, vs.getD i dummyObj, some ((i + 1) % vs.length)⟩)

/-- Looking up identity `i` in a heap generated over `range' a n` by a
function that puts identity `j` on the `j`-th node finds the `i`-th
node. -/
lemma find?_range' (g : Nat → Node) (hg : ∀ j, (g j).id = j) :
    ∀ (n a i : Nat), a ≤ i → i < a + n →
      ((List.range' a n).map g).find? (fun nd => nd.id == i) = some (g i) := by
  intro n
  induction n with
  | zero => intro a i hai hia; omega
  | succ n ih =>
      intro a i hai hia
      rw [List.range'_succ]
      by_cases hae : i = a
      · subst hae
        rw [List.map_cons, List.find?_cons_of_pos _ (by rw [hg]; exact beq_iff_eq.mpr rfl)]
      · have h1 : a + 1 ≤ i := by omega
        have h2 : i < (a + 1) + n := by omega
        rw [List.map_cons,
          List.find?_cons_of_neg _ (by rw [hg]; simp [Ne.symm hae]), ih (a + 1) i h1 h2]

/-- Looking up identity `i` in a heap generated over `range n` finds the
`i`-th node. -/
lemma find?_range (g : Nat → Node) (hg : ∀ j, (g j).id = j)
    {n i : Nat} (hi : i < n) :
    ((List.range n).map g).find? (fun nd => nd.id == i) = some (g i) := by
  rw [List.range_eq_range']
  exact find?_range' g hg n 0 i (Nat.zero_le i) (by omega)

lemma traverse_listHeap (vs : List PyObj) :
    ∀ (fuel i : Nat), fuel = vs.length - i → i < vs.length →
      traverseTake (listHeap vs) fuel (some i) = vs.drop i := by
  intro fuel
  induction fuel with
  | zero => intro i hf hi; omega
  | succ f ih =>
      intro i hf hi
      have hfind := find?_range
        (fun i => (⟨i, vs.getD i dummyObj,
          if i + 1 < vs.length then some (i + 1) else Option.none⟩ : Node))
        (fun j => rfl) hi
      show (match (listHeap vs).find? (fun nd => nd.id == i) with
        | Option.none => []
        | some nd => nd.value :: traverseTake (listHeap vs) f nd.next) = vs.drop i
      rw [show (listHeap vs).find? (fun nd => nd.id == i) =
        some ⟨i, vs.getD i dummyObj,
          if i + 1 < vs.length then some (i + 1) else Option.none⟩ from hfind]
      rw [List.drop_eq_getElem_cons hi, ← List.getD_eq_getElem vs dummyObj hi]
      by_cases hnext : i + 1 < vs.length
      · simp only [hnext, if_true]
        rw [ih (i + 1) (by omega) hnext]
      · simp only [hnext, if_false]
        rw [List.drop_eq_nil_of_le (by omega)]
        cases f <;> rfl

lemma traverse_cycleHeap (vs : List PyObj) :
    ∀ (fuel i : Nat), i < vs.length →
      traverseTake (cycleHeap vs) fuel (some i) =
        (List.range fuel).map (fun k => vs.getD ((i + k) % vs.length) dummyObj) := by
  intro fuel
  induction fuel with
  | zero => intro i hi; rfl
  | succ f ih =>
      intro i hi
      have hpos : 0 < vs.length := Nat.lt_of_le_of_lt (Nat.zero_le i) hi
      have hfind := find?_range
        (fun i => (⟨i, vs.getD i dummyObj, some ((i + 1) % vs.length)⟩ : Node))
        (fun j => rfl) hi
      show (match (cycleHeap vs).find? (fun nd => nd.id == i) with
        | Option.none => []
        | some nd => nd.value :: traverseTake (cycleHeap vs) f nd.next) =
        (List.range (f + 1)).map (fun k => vs.getD ((i + k) % vs.length) dummyObj)
      rw [show (cycleHeap vs).find? (fun nd => nd.id == i) =
        some ⟨i, vs.getD i dummyObj, some ((i + 1) % vs.length)⟩ from hfind]
      show vs.getD i dummyObj ::
          traverseTake (cycleHeap vs) f (some ((i + 1) % vs.length)) =
        (List.range (f + 1)).map (fun k => vs.getD ((i + k) % vs.length) dummyObj)
      rw [List.range_succ_eq_map, List.map_cons,
        ih ((i + 1) % vs.length) (Nat.mod_lt _ hpos), List.map_map]
      refine congrArg₂ List.cons ?_ ?_
      · rw [Nat.add_zero, Nat.mod_eq_of_lt hi]
      · refine List.map_congr_left ?_
        intro k hk
        show vs.getD (((i + 1) % vs.length + k) % vs.length) dummyObj =
          vs.getD ((i + Nat.succ k) % vs.length) dummyObj
        rw [Nat.mod_add_mod]
        have : i + 1 + k = i + Nat.succ k := by omega
        rw [this]

/-- **C10.** Traversal is lazy, order-preserving and duck-typed: started
on the terminal marker it yields nothing; started on the head of a chain
holding the values `vs` it yields exactly `vs` in order; and on a cyclic
value/next-shaped structure, taking any first `n` elements succeeds and
yields the cycle's values repeated periodically (element `k` is the value
at position `k mod length`). -/
theorem C10_traverse (vs : List PyObj) (hne : vs ≠ []) :
    (∀ (nodes : List Node) (fuel : Nat),
        traverseTake nodes fuel Option.none = []) ∧
      traverseTake (listHeap vs) vs.length (some 0) = vs ∧
      ∀ n : Nat, traverseTake (cycleHeap vs) n (some 0) =
        (List.range n).map (fun k => vs.getD (k % vs.length) dummyObj) := by
  have hpos : 0 < vs.length := List.length_pos.mpr hne
  refine ⟨?_, ?_, ?_⟩
  · intro nodes fuel
    cases fuel <;> rfl
  · rw [traverse_listHeap vs vs.length 0 (by omega) hpos]
    rfl
  · intro n
    rw [traverse_cycleHeap vs n 0 hpos]
    simp

/-- Witness for C10 at the doctest's cycle values `7, 8, 9`. -/
theorem C10_traverse_witness :
    ([⟨0, PyData.num 7⟩, ⟨1, PyData.num 8⟩, (⟨2, PyData.num 9⟩ : PyObj)] ≠ []) ∧
      ((∀ (nodes : List Node) (fuel : Nat),
          traverseTake nodes fuel Option.none = []) ∧
        traverseTake (listHeap [⟨0, PyData.num 7⟩, ⟨1, PyData.num 8⟩,
            ⟨2, PyData.num 9⟩]) 3 (some 0) =
          [⟨0, PyData.num 7⟩, ⟨1, PyData.num 8⟩, ⟨2, PyData.num 9⟩] ∧
        ∀ n : Nat, traverseTake (cycleHeap [⟨0, PyData.num 7⟩, ⟨1, PyData.num 8⟩,
            ⟨2, PyData.num 9⟩]) n (some 0) =
          (List.range n).map (fun k => [⟨0, PyData.num 7⟩, ⟨1, PyData.num 8⟩,
            (⟨2, PyData.num 9⟩ : PyObj)].getD (k % 3) dummyObj)) :=
  ⟨by decide,
    C10_traverse [⟨0, PyData.num 7⟩, ⟨1, PyData.num 8⟩, ⟨2, PyData.num 9⟩]
      (by decide)⟩

/-- Modelled from the spec: a `weakref.ref` object as the table keys use
it (per the design notes in `basics/sll.md`): an identity of the weakref
object itself (`rid`) and the hash code it has cached, if `hash` has ever
been called on it.  Per the notes, a weakref hashes from its referent,
caches the result at the first call, and returns the cached value forever
after — even once the referent is dead; a first `hash` call on a weakref
whose referent already died raises `TypeError`. -/
structure WRef where
  rid : Nat
  cachedHash : Option Int
deriving DecidableEq

/-- Modelled from the spec: one `hash` call on a weakref.  `live` is
`some h` when the referent is still alive and hashes to `h`, `none` when
it is dead.  Returns the hash code and the weakref (with its cache
possibly now filled), or raises. -/
def wHashCall (w : WRef) (live : Option Int) : Except String (Int × WRef) :=
  match w.cachedHash with
  | some h => Except.ok (h, w)
  | Option.none =>
      match live with
      | some h => Except.ok (h, ⟨w.rid, some h⟩)
      | Option.none => Except.error "TypeError"

/-- Modelled from the spec: one equality comparison between weakrefs: if
both referents are alive the referents' own comparison (`refEq`, which in
general may raise) decides; otherwise the weakrefs are equal only if they
are the same weakref object — the referents are not consulted at all. -/
def wEqCall (w1 w2 : WRef) (live1 live2 : Bool) (refEq : Except String Bool) :
    Except String Bool :=
  if live1 && live2 then refEq else Except.ok (w1.rid == w2.rid)

/-- How a tuple combines component hashes (any fixed mixing function). -/
def combineHash (a b : Int) : Int := a * 1000003 + b

/-- The hash of the terminal marker `None` standing in the `next` slot of
a key. -/
def noneHash : Int := 0

/-- Modelled from the spec: a table key — a tuple of a weakref to the
value box and, for the `next` slot, either `None` or a weakref to the
successor node (`weakref.ref(box), next_node and weakref.ref(next_node)`). -/
structure WKey where
  vref : WRef
  nref : Option WRef
deriving DecidableEq

/-- Modelled from the spec: one `hash` call on a key: hash both
components (a tuple hashes structurally) and combine. -/
def keyHashCall (k : WKey) (vlive nlive : Option Int) :
    Except String (Int × WKey) :=
  match wHashCall k.vref vlive with
  | Except.error e => Except.error e
  | Except.ok (hv, v') =>
      match k.nref with
      | Option.none => Except.ok (combineHash hv noneHash, ⟨v', Option.none⟩)
      | some nw =>
          match wHashCall nw nlive with
          | Except.error e => Except.error e
          | Except.ok (hn, n') => Except.ok (combineHash hv hn, ⟨v', some n'⟩)

/-- **C7.** Table-key hash stability and totality: once a key has been
hashed successfully — as it necessarily was when it was inserted into the
table — every later `hash` call on it returns the same hash value with no
error and no further change, whatever the liveness of its referents
(alive, dead, or mixed); and re-comparing weakrefs after a referent dies
never consults the referents and so never raises. -/
theorem C7_key_hash_stability (k k' : WKey) (vl nl : Option Int) (h : Int)
    (hins : keyHashCall k vl nl = Except.ok (h, k')) :
    (∀ vl' nl' : Option Int, keyHashCall k' vl' nl' = Except.ok (h, k')) ∧
      ∀ (w1 w2 : WRef) (l1 l2 : Bool) (r : Except String Bool),
        l1 = false ∨ l2 = false →
          ∃ b : Bool, wEqCall w1 w2 l1 l2 r = Except.ok b := by
  constructor
  · intro vl' nl'
    rcases k with ⟨⟨vrid, vc⟩, nref⟩
    cases vc with
    | none =>
        cases vl with
        | none => exact absurd hins (by simp [keyHashCall, wHashCall])
        | some hv =>
            cases nref with
            | none =>
                simp only [keyHashCall, wHashCall] at hins
                obtain ⟨h1, h2⟩ := Prod.mk.injEq .. ▸ Except.ok.inj hins
                rw [← h2, ← h1]
                simp [keyHashCall, wHashCall]
            | some nw =>
                rcases nw with ⟨nrid, nc⟩
                cases nc with
                | none =>
                    cases nl with
                    | none => exact absurd hins (by simp [keyHashCall, wHashCall])
                    | some hn =>
                        simp only [keyHashCall, wHashCall] at hins
                        obtain ⟨h1, h2⟩ := Prod.mk.injEq .. ▸ Except.ok.inj hins
                        rw [← h2, ← h1]
                        simp [keyHashCall, wHashCall]
                | some hn =>
                    simp only [keyHashCall, wHashCall] at hins
                    obtain ⟨h1, h2⟩ := Prod.mk.injEq .. ▸ Except.ok.inj hins
                    rw [← h2, ← h1]
                    simp [keyHashCall, wHashCall]
    | some hv =>
        cases nref with
        | none =>
            simp only [keyHashCall, wHashCall] at hins
            obtain ⟨h1, h2⟩ := Prod.mk.injEq .. ▸ Except.ok.inj hins
            rw [← h2, ← h1]
            simp [keyHashCall, wHashCall]
        | some nw =>
            rcases nw with ⟨nrid, nc⟩
            cases nc with
            | none =>
                cases nl with
                | none => exact absurd hins (by simp [keyHashCall, wHashCall])
                | some hn =>
                    simp only [keyHashCall, wHashCall] at hins
                    obtain ⟨h1, h2⟩ := Prod.mk.injEq .. ▸ Except.ok.inj hins
                    rw [← h2, ← h1]
                    simp [keyHashCall, wHashCall]
            | some hn =>
                simp only [keyHashCall, wHashCall] at hins
                obtain ⟨h1, h2⟩ := Prod.mk.injEq .. ▸ Except.ok.inj hins
                rw [← h2, ← h1]
                simp [keyHashCall, wHashCall]
  · intro w1 w2 l1 l2 r hl
    refine ⟨w1.rid == w2.rid, ?_⟩
    rcases hl with hl | hl <;> subst hl <;> simp [wEqCall]

/-- Witness for C7: a fresh two-weakref key hashed at insertion time with
live referents hashing to 5 and 9; afterwards both referents are dead and
the hash call still returns the cached result. -/
theorem C7_key_hash_stability_witness :
    keyHashCall ⟨⟨0, Option.none⟩, some ⟨1, Option.none⟩⟩ (some 5) (some 9) =
        Except.ok (combineHash 5 9, ⟨⟨0, some 5⟩, some ⟨1, some 9⟩⟩) ∧
      keyHashCall ⟨⟨0, some 5⟩, some ⟨1, some 9⟩⟩ Option.none Option.none =
        Except.ok (combineHash 5 9, ⟨⟨0, some 5⟩, some ⟨1, some 9⟩⟩) :=
  ⟨rfl,
    (C7_key_hash_stability ⟨⟨0, Option.none⟩, some ⟨1, Option.none⟩⟩
        ⟨⟨0, some 5⟩, some ⟨1, some 9⟩⟩ (some 5) (some 9)
        (combineHash 5 9) rfl).1 Option.none Option.none⟩
